import Mathlib

/-!
Shallow embedding of the `tmoscrip/raytracer` core in Lean 4, over exact
rationals in place of `f64`.  Calls to `f64::sqrt` and `f64::powf` are
threaded as explicit function parameters `rsqrt` / `rpow`, since the source
only ever consumes their results; every other arithmetic step is embedded
exactly.  Rust panics (`unwrap`, out-of-bounds indexing) are modelled with
`Option`: `none` is a panic.
-/

namespace Raytracer

/-- Machine epsilon of `f64`, the exact rational value of `f64::EPSILON`. -/
def f64Epsilon : ℚ := 1 / 2 ^ 52

/-- Embedding of `tuple.rs` (`src/geometry.rs` in the staged sources):
a homogeneous 4-tuple, `w = 1` for a point and `w = 0` for a vector. -/
structure Tuple where
  x : ℚ
  y : ℚ
  z : ℚ
  w : ℚ
  deriving DecidableEq, Repr

namespace Tuple

/-- `Tuple::point`. -/
def point (x y z : ℚ) : Tuple := ⟨x, y, z, 1⟩

/-- `Tuple::vector`. -/
def vector (x y z : ℚ) : Tuple := ⟨x, y, z, 0⟩

/-- `impl Add for Tuple`. -/
def add (a b : Tuple) : Tuple := ⟨a.x + b.x, a.y + b.y, a.z + b.z, a.w + b.w⟩

instance : Add Tuple := ⟨add⟩

/-- `impl Sub for Tuple`. -/
def sub (a b : Tuple) : Tuple := ⟨a.x - b.x, a.y - b.y, a.z - b.z, a.w - b.w⟩

instance : Sub Tuple := ⟨sub⟩

/-- `impl Neg for Tuple`. -/
def neg (a : Tuple) : Tuple := ⟨-a.x, -a.y, -a.z, -a.w⟩

instance : Neg Tuple := ⟨neg⟩

/-- `impl Mul<f64> for Tuple`. -/
def smul (a : Tuple) (s : ℚ) : Tuple := ⟨a.x * s, a.y * s, a.z * s, a.w * s⟩

instance : HMul Tuple ℚ Tuple := ⟨smul⟩

/-- `Tuple::dot`. -/
def dot (a b : Tuple) : ℚ := a.x * b.x + a.y * b.y + a.z * b.z + a.w * b.w

/-- `Tuple::magnitude`; `rsqrt` stands for `f64::sqrt`. -/
def magnitude (rsqrt : ℚ → ℚ) (t : Tuple) : ℚ :=
  rsqrt (t.x * t.x + t.y * t.y + t.z * t.z + t.w * t.w)

/-- `Tuple::normalise`: each component is divided by the magnitude (the
source recomputes the same magnitude for each component). -/
def normalise (rsqrt : ℚ → ℚ) (t : Tuple) : Tuple :=
  ⟨t.x / magnitude rsqrt t, t.y / magnitude rsqrt t,
   t.z / magnitude rsqrt t, t.w / magnitude rsqrt t⟩

end Tuple

/-- Modelled from the spec: `tuple::reflect` is absent from the staged
sources (only its callers are); the spec gives the reflection vector as
`r = d − 2(d·n)n`. -/
def reflect (d n : Tuple) : Tuple := d - n * (2 * d.dot n)

/-- Embedding of `colour.rs`: an RGB triple. -/
structure Colour where
  r : ℚ
  g : ℚ
  b : ℚ
  deriving DecidableEq, Repr

namespace Colour

/-- `impl Add for Colour`. -/
def add (a b : Colour) : Colour := ⟨a.r + b.r, a.g + b.g, a.b + b.b⟩

instance : Add Colour := ⟨add⟩

/-- `impl Mul<f64> for Colour`. -/
def smul (a : Colour) (s : ℚ) : Colour := ⟨a.r * s, a.g * s, a.b * s⟩

instance : HMul Colour ℚ Colour := ⟨smul⟩

/-- `impl Sub for Colour`. -/
def sub (a b : Colour) : Colour := ⟨a.r - b.r, a.g - b.g, a.b - b.b⟩

instance : Sub Colour := ⟨sub⟩

/-- `impl Mul<Colour> for Colour` (Hadamard product). -/
def mul (a b : Colour) : Colour := ⟨a.r * b.r, a.g * b.g, a.b * b.b⟩

instance : Mul Colour := ⟨mul⟩

/-- Modelled from the spec: `Colour::black` is not in the staged `colour.rs`
(callers write `Colour::black()` and `Colour::new(0.0, 0.0, 0.0)`
interchangeably); the spec's "pure black" is RGB (0,0,0). -/
def black : Colour := ⟨0, 0, 0⟩

/-- Modelled from the spec: `Colour::white` is RGB (1,1,1). -/
def white : Colour := ⟨1, 1, 1⟩

end Colour

/-- Unfolding of the `Tuple` instance operations, for evaluation. -/
theorem Tuple.add_def (a b : Tuple) :
    a + b = ⟨a.x + b.x, a.y + b.y, a.z + b.z, a.w + b.w⟩ := rfl

/-- Unfolding of `Tuple` subtraction. -/
theorem Tuple.sub_def (a b : Tuple) :
    a - b = ⟨a.x - b.x, a.y - b.y, a.z - b.z, a.w - b.w⟩ := rfl

/-- Unfolding of `Tuple` negation. -/
theorem Tuple.neg_def (a : Tuple) : -a = ⟨-a.x, -a.y, -a.z, -a.w⟩ := rfl

/-- Unfolding of `Tuple` scalar multiplication. -/
theorem Tuple.smul_def (a : Tuple) (s : ℚ) :
    a * s = ⟨a.x * s, a.y * s, a.z * s, a.w * s⟩ := rfl

/-- Unfolding of `Colour` addition. -/
theorem Colour.add_eval (a b : Colour) :
    a + b = ⟨a.r + b.r, a.g + b.g, a.b + b.b⟩ := rfl

/-- Unfolding of `Colour` subtraction. -/
theorem Colour.sub_eval (a b : Colour) :
    a - b = ⟨a.r - b.r, a.g - b.g, a.b - b.b⟩ := rfl

/-- Unfolding of `Colour` scalar multiplication. -/
theorem Colour.smul_eval (a : Colour) (s : ℚ) :
    a * s = ⟨a.r * s, a.g * s, a.b * s⟩ := rfl

/-- Unfolding of the `Colour` Hadamard product. -/
theorem Colour.mul_def (a b : Colour) :
    a * b = ⟨a.r * b.r, a.g * b.g, a.b * b.b⟩ := rfl

/-- Embedding of `intersection.rs`: `Intersection { t, object_id }`. -/
structure Intersection where
  t : ℚ
  object_id : ℕ
  deriving DecidableEq, Repr

/-- Rust `Iterator::min_by` with comparator `a.t.partial_cmp(&b.t)`:
a left fold that keeps the accumulator only while it is strictly below the
next element (`std::cmp::min_by` returns its second argument on `Equal`,
so of several minima the last is kept). -/
def min_by_t (xs : List Intersection) : Option Intersection :=
  xs.foldl
    (fun acc i =>
      match acc with
      | none => some i
      | some a => if a.t < i.t then some a else some i)
    none

/-- `intersection::hit`: the non-negative-t intersections, minimised by t. -/
def hit (xs : List Intersection) : Option Intersection :=
  min_by_t (xs.filter (fun i => 0 ≤ i.t))

/-- Embedding of `matrix.rs`: an n-by-n matrix of `f64` values (the source
uses `Vec<Vec<f64>>`; square shapes are all the raytracer constructs, and
the cofactor machinery is generalised over the dimension exactly as the
source's `submatrix` recursion is). -/
def Mat (n : ℕ) : Type := Fin n → Fin n → ℚ

/-- `Matrix::submatrix(row, col)`: drop one row and one column; entry (i, j)
of the result is entry (i < row ? i : i + 1, j < col ? j : j + 1) of the
original, exactly the source's skip-and-renumber loop (`Fin.succAbove` is
that very conditional). -/
def submatrix {n : ℕ} (m : Mat (n + 1)) (row col : Fin (n + 1)) : Mat n :=
  fun i j => m (row.succAbove i) (col.succAbove j)

/-- `Matrix::determinant`: 2-by-2 base case, otherwise cofactor expansion
along row 0.  The cofactor call is inlined (its checkerboard sign times the
submatrix determinant) so the recursion is structural in the dimension; the
source's `else` branch sums over the columns, so a 0-by-0 matrix gets the
empty sum 0, and a 1-by-1 matrix goes through the same expansion. -/
def determinant : (n : ℕ) → Mat n → ℚ
  | 0, _ => 0
  | 1, m =>
    m 0 0 *
      ((if (((0 : Fin 1) : ℕ) + ((0 : Fin 1) : ℕ)) % 2 = 0 then (1 : ℚ) else -1) *
        determinant 0 (submatrix m 0 0))
  | 2, m => m 0 0 * m 1 1 - m 0 1 * m 1 0
  | n + 3, m =>
    ∑ col : Fin (n + 3),
      m 0 col *
        ((if (((0 : Fin (n + 3)) : ℕ) + (col : ℕ)) % 2 = 0 then (1 : ℚ) else -1) *
          determinant (n + 2) (submatrix m 0 col))

/-- `Matrix::cofactor` = `Matrix::minor` (the submatrix determinant) with
the checkerboard sign. -/
def cofactor (n : ℕ) (m : Mat (n + 1)) (row col : Fin (n + 1)) : ℚ :=
  (if (((row : Fin (n + 1)) : ℕ) + ((col : Fin (n + 1)) : ℕ)) % 2 = 0 then (1 : ℚ) else -1) *
    determinant n (submatrix m row col)

/-- The inlining above is exactly the source's `m[0][col] * cofactor(0, col)`
expansion. -/
theorem determinant_succ_succ_succ (n : ℕ) (m : Mat (n + 3)) :
    determinant (n + 3) m = ∑ col : Fin (n + 3), m 0 col * cofactor (n + 2) m 0 col := rfl

/-- `Matrix::transpose`. -/
def transpose {n : ℕ} (m : Mat n) : Mat n := fun i j => m j i

/-- `Matrix::inverse`: panics on determinant 0 (modelled as `none`), else
the transposed cofactor matrix divided by the determinant. -/
def inverse {n : ℕ} (m : Mat (n + 1)) : Option (Mat (n + 1)) :=
  if determinant (n + 1) m = 0 then none
  else some (fun i j => cofactor n m j i / determinant (n + 1) m)

/-- `Matrix::identity` (4-by-4): ones on the diagonal. -/
def identityM : Mat 4 := fun i j => if i = j then 1 else 0

/-- `Matrix::translation`: the identity with the x, y, z entries written
into column 3. -/
def translation (x y z : ℚ) : Mat 4 := fun i j =>
  if i = 0 ∧ j = 3 then x
  else if i = 1 ∧ j = 3 then y
  else if i = 2 ∧ j = 3 then z
  else if i = j then 1
  else 0

/-- `Matrix::scaling`: the identity with x, y, z written onto the
diagonal. -/
def scaling (x y z : ℚ) : Mat 4 := fun i j =>
  if i = 0 ∧ j = 0 then x
  else if i = 1 ∧ j = 1 then y
  else if i = 2 ∧ j = 2 then z
  else if i = j then 1
  else 0

/-- One entry of a matrix product: the source's inner `for k` accumulation,
unrolled over the four columns. -/
def dot4 (row col : Fin 4 → ℚ) : ℚ :=
  row 0 * col 0 + row 1 * col 1 + row 2 * col 2 + row 3 * col 3

/-- `impl Mul<Matrix> for Matrix` at the 4-by-4 shape used by the tracer. -/
def matMul (a b : Mat 4) : Mat 4 := fun i j => dot4 (a i) (fun k => b k j)

/-- `impl Mul<Tuple> for Matrix`: each row dotted with `(x, y, z, w)`. -/
def matApply (m : Mat 4) (t : Tuple) : Tuple :=
  ⟨dot4 (m 0) ![t.x, t.y, t.z, t.w],
   dot4 (m 1) ![t.x, t.y, t.z, t.w],
   dot4 (m 2) ![t.x, t.y, t.z, t.w],
   dot4 (m 3) ![t.x, t.y, t.z, t.w]⟩

/-- `impl PartialEq for Matrix` on two 4-by-4 matrices: every entry pair
differs by at most `f64::EPSILON` (the source returns `false` as soon as a
difference exceeds it). -/
def matApproxEq (a b : Mat 4) : Prop :=
  ∀ i j : Fin 4, |a i j - b i j| ≤ f64Epsilon

/-- Modelled from the spec: `ray.rs` is absent from the staged sources.
The spec describes Ray as "origin + direction, point-at-parameter,
transform-by-matrix". -/
structure Ray where
  origin : Tuple
  direction : Tuple
  deriving DecidableEq, Repr

/-- Modelled from the spec: `Ray::position(t)` is the point at parameter t,
`origin + direction * t`. -/
def Ray.position (r : Ray) (t : ℚ) : Tuple := r.origin + r.direction * t

/-- Modelled from the spec: `Ray::transform(m)` applies the matrix to the
origin and the direction. -/
def Ray.transform (r : Ray) (m : Mat 4) : Ray :=
  ⟨matApply m r.origin, matApply m r.direction⟩

/-- Embedding of `pattern/pattern.rs`: `PatternData` with its own transform
and cached inverse. -/
structure PatternData where
  a : Colour
  b : Colour
  transform : Mat 4
  inverse_transform : Mat 4

/-- Embedding of `pattern/mod.rs`: the `PatternType` tagged variants. -/
inductive PatternType where
  | striped (data : PatternData)
  | gradient (data : PatternData)
  | ring (data : PatternData)

/-- The variant's `PatternData`. -/
def PatternType.data : PatternType → PatternData
  | .striped d => d
  | .gradient d => d
  | .ring d => d

/-- Dispatch of `Pattern::pattern_at`: `Striped` alternates on the parity of
`floor(x)` (the Rust `%` and the Lean `%` on integers agree on the test
against 0 modulo 2); `Gradient` interpolates on the fractional part of x;
`Ring` alternates on the parity of `floor(sqrt(x^2 + z^2))`. -/
def PatternType.pattern_at (rsqrt : ℚ → ℚ) : PatternType → Tuple → Colour
  | .striped d, p => if (⌊p.x⌋ % 2) = 0 then d.a else d.b
  | .gradient d, p => d.a + (d.b - d.a) * (p.x - (⌊p.x⌋ : ℚ))
  | .ring d, p =>
    if (⌊rsqrt (p.x ^ 2 + p.z ^ 2)⌋ % 2) = 0 then d.a else d.b

/-- Embedding of `materials.rs`: the `Material` record. -/
structure Material where
  colour : Colour
  ambient : ℚ
  diffuse : ℚ
  specular : ℚ
  shininess : ℚ
  reflective : ℚ
  transparency : ℚ
  refractive_index : ℚ
  pattern : Option PatternType

/-- `Material::new`, the default material. -/
def Material.new : Material :=
  { colour := ⟨1, 1, 1⟩
    ambient := 1 / 10
    diffuse := 9 / 10
    specular := 9 / 10
    shininess := 200
    reflective := 0
    transparency := 0
    refractive_index := 1
    pattern := none }

/-- Embedding of `shape/shape.rs`: `ShapeData` with the cached inverse
transform. -/
structure ShapeData where
  id : ℕ
  transform : Mat 4
  inverse_transform : Mat 4
  material : Material

/-- The closed set of shape variants (`shape/sphere.rs`, `shape/plane.rs`). -/
inductive ShapeKind where
  | sphere
  | plane
  deriving DecidableEq

/-- A `dyn Shape` value: its variant plus its `ShapeData`. -/
structure Shape where
  kind : ShapeKind
  data : ShapeData

/-- `Sphere::new`: identity transforms (the identity is its own inverse),
default material, id 0 until registration. -/
def Sphere.new : Shape :=
  ⟨.sphere, ⟨0, identityM, identityM, Material.new⟩⟩

/-- `Sphere::glass`: `Sphere::new` with transparency 1 and refractive
index 1.5. -/
def Sphere.glass : Shape :=
  ⟨.sphere, ⟨0, identityM, identityM,
    { Material.new with transparency := 1, refractive_index := 3 / 2 }⟩⟩

/-- `Plane::new`. -/
def Plane.new : Shape :=
  ⟨.plane, ⟨0, identityM, identityM, Material.new⟩⟩

/-- `Shape::local_intersect` dispatched over the two variants.
`Sphere`: quadratic root finding on the unit sphere, empty on a negative
discriminant.  `Plane`: no intersection when `|direction.y|` is below
`f64::EPSILON * 50000`, else the single root `-origin.y / direction.y`,
tagged with this shape's id. -/
def local_intersect (rsqrt : ℚ → ℚ) (s : Shape) (ray : Ray) : List Intersection :=
  match s.kind with
  | .sphere =>
    let sphere_to_ray := ray.origin - Tuple.point 0 0 0
    let a := ray.direction.dot ray.direction
    let b := 2 * ray.direction.dot sphere_to_ray
    let c := sphere_to_ray.dot sphere_to_ray - 1
    let discriminant := b * b - 4 * a * c
    if discriminant < 0 then []
    else
      let sqrt_discriminant := rsqrt discriminant
      let inv_2a := 1 / (2 * a)
      let t1 := (-b - sqrt_discriminant) * inv_2a
      let t2 := (-b + sqrt_discriminant) * inv_2a
      [⟨t1, s.data.id⟩, ⟨t2, s.data.id⟩]
  | .plane =>
    if |ray.direction.y| < f64Epsilon * 50000 then []
    else [⟨-ray.origin.y / ray.direction.y, s.data.id⟩]

/-- `Shape::intersect`: the world ray moved to object space by the cached
inverse transform, then `local_intersect`. -/
def Shape.intersect (rsqrt : ℚ → ℚ) (s : Shape) (ray : Ray) : List Intersection :=
  local_intersect rsqrt s (ray.transform s.data.inverse_transform)

/-- `Shape::local_normal_at` dispatched over the two variants: the sphere's
local normal is the point minus the origin, the plane's is the constant
(0, 1, 0). -/
def local_normal_at (s : Shape) (local_point : Tuple) : Tuple :=
  match s.kind with
  | .sphere => local_point - Tuple.point 0 0 0
  | .plane => Tuple.vector 0 1 0

/-- `Shape::normal_at`: world point to object space, local normal, back
through the transposed inverse transform, re-typed as a vector and
normalised. -/
def Shape.normal_at (rsqrt : ℚ → ℚ) (s : Shape) (world_point : Tuple) : Tuple :=
  let object_point := matApply s.data.inverse_transform world_point
  let object_normal := local_normal_at s object_point
  let world_normal := matApply (transpose s.data.inverse_transform) object_normal
  Tuple.normalise rsqrt (Tuple.vector world_normal.x world_normal.y world_normal.z)

/-- `Pattern::pattern_at_shape`: the world point through the shape's inverse
transform, then through the pattern's own inverse transform, then sampled. -/
def PatternType.pattern_at_shape (rsqrt : ℚ → ℚ) (p : PatternType) (shape : Shape)
    (world_point : Tuple) : Colour :=
  let object_point := matApply shape.data.inverse_transform world_point
  let pattern_point := matApply p.data.inverse_transform object_point
  p.pattern_at rsqrt pattern_point

/-- Modelled from the spec: `shape_registry.rs` is absent from the staged
sources (`world.rs` and `intersection.rs` only use it).  The spec gives the
Registry as an append-only arena: "register(shape) -> id assigns a fresh
sequential id and takes exclusive ownership; get(id) -> Option<&Shape> is
the only read path", iteration in insertion order. -/
structure ShapeRegistry where
  shapes : List Shape

/-- Modelled from the spec: the empty registry. -/
def ShapeRegistry.new : ShapeRegistry := ⟨[]⟩

/-- Modelled from the spec: `register` stamps the next sequential id on the
shape, appends it, and returns the id. -/
def ShapeRegistry.register (reg : ShapeRegistry) (s : Shape) : ShapeRegistry × ℕ :=
  (⟨reg.shapes ++ [{ s with data := { s.data with id := reg.shapes.length } }]⟩,
   reg.shapes.length)

/-- Modelled from the spec: `get(id)` finds the shape with that id. -/
def ShapeRegistry.get (reg : ShapeRegistry) (id : ℕ) : Option Shape :=
  reg.shapes.find? (fun s => s.data.id == id)

/-- Embedding of `light.rs`: a point light. -/
structure Light where
  position : Tuple
  intensity : Colour

/-- Embedding of `world.rs`: `World { registry, light }`. -/
structure World where
  registry : ShapeRegistry
  light : Option Light

/-- `MAX_BOUNCES`. -/
def MAX_BOUNCES : ℤ := 5

/-- Stable insertion of an intersection into a t-sorted list: it goes after
every element whose t is less than or equal to its own. -/
def insert_by_t (x : Intersection) : List Intersection → List Intersection
  | [] => [x]
  | y :: ys => if y.t ≤ x.t then y :: insert_by_t x ys else x :: y :: ys

/-- Rust `sort_by(|a, b| a.t.partial_cmp(&b.t).unwrap())`: a stable
ascending sort by t (stable insertion sort computes the same list as the
source's stable merge sort; with rationals `partial_cmp` never returns
`None`, so the `unwrap` cannot panic). -/
def sort_by_t : List Intersection → List Intersection
  | [] => []
  | x :: xs => insert_by_t x (sort_by_t xs)

/-- `World::intersect_world`: every registered shape's intersections
concatenated in registry iteration order, sorted ascending by t. -/
def World.intersect_world (rsqrt : ℚ → ℚ) (w : World) (ray : Ray) : List Intersection :=
  sort_by_t (w.registry.shapes.flatMap (fun s => s.intersect rsqrt ray))

/-- Embedding of `intersection.rs`: `PreComputedData` (the `object` field
holds the resolved shape). -/
structure PreComputedData where
  t : ℚ
  object : Shape
  point : Tuple
  over_point : Tuple
  eyev : Tuple
  normalv : Tuple
  reflectv : Tuple
  inside : Bool
  n1 : ℚ
  n2 : ℚ

/-- `intersection_eq`: same object id and t within 1e-8. -/
def intersection_eq (a b : Intersection) : Prop :=
  a.object_id = b.object_id ∧ |a.t - b.t| < 1 / 100000000

instance (a b : Intersection) : Decidable (intersection_eq a b) := by
  unfold intersection_eq; infer_instance

/-- The containment-stack walk of `prepare_computations`: for each listed
intersection, read n1 from the stack top just before updating when it is the
hit, then pop the object on a repeat visit or push it on a first visit
(`position` + `remove` is removal of the first id match), then read n2 from
the new top and stop when it is the hit.  `registry.get(...).unwrap()` is a
panic (`none`) on a dangling id.  A walk that never meets the hit leaves the
initial pair (1, 1). -/
def refraction_walk (hitI : Intersection) (reg : ShapeRegistry) :
    List Intersection → List Shape → ℚ → ℚ → Option (ℚ × ℚ)
  | [], _, n1, n2 => some (n1, n2)
  | i :: rest, containers, n1, n2 =>
    let n1' :=
      if intersection_eq i hitI then
        (containers.getLast?).elim 1 (fun o => o.data.material.refractive_index)
      else n1
    match reg.get i.object_id with
    | none => none
    | some current_object =>
      let containers' :=
        if containers.any (fun o => o.data.id == current_object.data.id) then
          containers.eraseP (fun o => o.data.id == current_object.data.id)
        else containers ++ [current_object]
      if intersection_eq i hitI then
        some (n1',
          (containers'.getLast?).elim 1 (fun o => o.data.material.refractive_index))
      else refraction_walk hitI reg rest containers' n1' n2

/-- `prepare_computations`: resolves the hit's shape (source-level `None`
when the id is dangling, the inner `Option`), computes point, eye vector,
the possibly flipped normal and `inside` flag, the reflection vector, the
refractive pair from the ordered intersection list when one is supplied, and
the over point nudged by `50000 * EPSILON` along the normal.  The outer
`Option` is a panic inside the containment walk. -/
def prepare_computations (rsqrt : ℚ → ℚ) (hitI : Intersection) (ray : Ray)
    (registry : ShapeRegistry) (all_intersections : Option (List Intersection)) :
    Option (Option PreComputedData) :=
  match registry.get hitI.object_id with
  | none => some none
  | some sphere =>
    let point := ray.position hitI.t
    let eyev := -ray.direction
    let normalv0 := sphere.normal_at rsqrt point
    let inside := decide (normalv0.dot eyev < 0)
    let normalv := if inside then -normalv0 else normalv0
    let reflectv := reflect ray.direction normalv
    let walked :=
      match all_intersections with
      | none => some ((1 : ℚ), (1 : ℚ))
      | some xs => refraction_walk hitI registry xs [] 1 1
    match walked with
    | none => none
    | some (n1, n2) =>
      some (some
        { t := hitI.t
          object := sphere
          point := point
          over_point := point + normalv * (50000 : ℚ) * f64Epsilon
          eyev := eyev
          normalv := normalv
          reflectv := reflectv
          inside := inside
          n1 := n1
          n2 := n2 })

/-- `materials::lighting`: the effective surface colour is the pattern
sample through `pattern_at_shape` when a pattern is set, else the material
colour; ambient always contributes; diffuse and specular are black in
shadow or when the light is behind the surface; the specular factor is
`reflect_dot_eye.powf(shininess)` (`rpow` stands for `f64::powf`). -/
def lighting (rsqrt : ℚ → ℚ) (rpow : ℚ → ℚ → ℚ) (material : Material) (object : Shape)
    (light : Light) (point eyev normalv : Tuple) (in_shadow : Bool) : Colour :=
  let colour :=
    match material.pattern with
    | some pattern => pattern.pattern_at_shape rsqrt object point
    | none => material.colour
  let effective_colour := colour * light.intensity
  let lightv := Tuple.normalise rsqrt (light.position - point)
  let ambient := effective_colour * material.ambient
  let light_dot_normal := lightv.dot normalv
  let dsPair :=
    if light_dot_normal < 0 ∨ in_shadow = true then (Colour.black, Colour.black)
    else
      let diffuse := effective_colour * material.diffuse * light_dot_normal
      let reflectv := reflect (-lightv) normalv
      let reflect_dot_eye := reflectv.dot eyev
      if reflect_dot_eye ≤ 0 then (diffuse, Colour.black)
      else (diffuse, light.intensity * material.specular * rpow reflect_dot_eye material.shininess)
  ambient + dsPair.1 + dsPair.2

/-- `World::is_shadowed`: `self.light.as_ref().unwrap()` panics (`none`)
when the world has no light; otherwise the point is shadowed iff the hit of
the ray towards the light is closer than the light. -/
def World.is_shadowed (rsqrt : ℚ → ℚ) (w : World) (point : Tuple) : Option Bool :=
  match w.light with
  | none => none
  | some light =>
    let v := light.position - point
    let distance := Tuple.magnitude rsqrt v
    let direction := Tuple.normalise rsqrt v
    let r : Ray := ⟨point, direction⟩
    let xs := w.intersect_world rsqrt r
    some (match hit xs with
      | some h => decide (h.t < distance)
      | none => false)

section ColourResolution

variable (rsqrt : ℚ → ℚ) (rpow : ℚ → ℚ → ℚ)

mutual

/-- `World::shade_hit`: `is_shadowed` runs first (and is where a lightless
world panics); the local Phong surface colour is black when there is no
light, and the hit object's material is lit against a fresh `Sphere::new()`
exactly as the source does; the reflected contribution is added. -/
def World.shade_hit (w : World) (comps : PreComputedData) (bounces_remaining : ℤ) :
    Option Colour :=
  match w.is_shadowed rsqrt comps.over_point with
  | none => none
  | some shadowed =>
    let surface :=
      match w.light with
      | some light =>
        lighting rsqrt rpow comps.object.data.material Sphere.new light
          comps.point comps.eyev comps.normalv shadowed
      | none => Colour.mk 0 0 0
    match w.reflected_colour comps bounces_remaining with
    | none => none
    | some reflected => some (surface + reflected)
termination_by (bounces_remaining.toNat, 1)
decreasing_by exact Prod.Lex.right _ (by omega)

/-- `World::colour_at`: black when the ray hits nothing or the hit's id is
dangling, else `prepare_computations` and `shade_hit`. -/
def World.colour_at (w : World) (ray : Ray) (bounces_remaining : ℤ) : Option Colour :=
  let xs := w.intersect_world rsqrt ray
  match hit xs with
  | some h =>
    match prepare_computations rsqrt h ray w.registry (some xs) with
    | none => none
    | some (some comp) => w.shade_hit comp bounces_remaining
    | some none => some Colour.black
  | none => some Colour.black
termination_by (bounces_remaining.toNat, 2)
decreasing_by exact Prod.Lex.right _ (by omega)

/-- `World::reflected_colour`: black when the budget is spent or the
material is not reflective, else one recursive `colour_at` along the
reflection ray from the over point, scaled by the reflective coefficient. -/
def World.reflected_colour (w : World) (comps : PreComputedData) (bounces_remaining : ℤ) :
    Option Colour :=
  if _h1 : bounces_remaining ≤ 0 then some Colour.black
  else if comps.object.data.material.reflective = 0 then some Colour.black
  else
    let reflect_ray : Ray := ⟨comps.over_point, comps.reflectv⟩
    match w.colour_at reflect_ray (bounces_remaining - 1) with
    | none => none
    | some c => some (c * comps.object.data.material.reflective)
termination_by (bounces_remaining.toNat, 0)
decreasing_by exact Prod.Lex.left _ _ (by omega)

end

mutual

/-- Fuel-indexed `shade_hit`: the fuel only bounds how many more times
`colour_at` may be entered; `none` in the outer layer is fuel exhaustion. -/
def World.shade_hit_fuel : (fuel : ℕ) → World → PreComputedData → ℤ → Option (Option Colour)
  | fuel, w, comps, bounces_remaining =>
    match w.is_shadowed rsqrt comps.over_point with
    | none => some none
    | some shadowed =>
      let surface :=
        match w.light with
        | some light =>
          lighting rsqrt rpow comps.object.data.material Sphere.new light
            comps.point comps.eyev comps.normalv shadowed
        | none => Colour.mk 0 0 0
      match World.reflected_colour_fuel fuel w comps bounces_remaining with
      | none => none
      | some none => some none
      | some (some reflected) => some (some (surface + reflected))
termination_by fuel _ _ _ => (fuel, 2)
decreasing_by exact Prod.Lex.right _ (by omega)

/-- Fuel-indexed `colour_at`: entering consumes one unit of fuel, so a
computation that completes with fuel f re-enters `colour_at` fewer than f
times. -/
def World.colour_at_fuel : (fuel : ℕ) → World → Ray → ℤ → Option (Option Colour)
  | 0, _, _, _ => none
  | fuel + 1, w, ray, bounces_remaining =>
    let xs := w.intersect_world rsqrt ray
    match hit xs with
    | some h =>
      match prepare_computations rsqrt h ray w.registry (some xs) with
      | none => some none
      | some (some comp) => World.shade_hit_fuel fuel w comp bounces_remaining
      | some none => some (some Colour.black)
    | none => some (some Colour.black)
termination_by fuel _ _ _ => (fuel, 0)
decreasing_by exact Prod.Lex.left _ _ (by omega)

/-- Fuel-indexed `reflected_colour`. -/
def World.reflected_colour_fuel : (fuel : ℕ) → World → PreComputedData → ℤ → Option (Option Colour)
  | fuel, w, comps, bounces_remaining =>
    if bounces_remaining ≤ 0 then some (some Colour.black)
    else if comps.object.data.material.reflective = 0 then some (some Colour.black)
    else
      let reflect_ray : Ray := ⟨comps.over_point, comps.reflectv⟩
      match World.colour_at_fuel fuel w reflect_ray (bounces_remaining - 1) with
      | none => none
      | some none => some none
      | some (some c) => some (some (c * comps.object.data.material.reflective))
termination_by fuel _ _ _ => (fuel, 1)
decreasing_by exact Prod.Lex.right _ (by omega)

end

end ColourResolution

/-- Embedding of `camera.rs`: the `Canvas` framebuffer. -/
structure Canvas where
  width : ℕ
  height : ℕ
  pixels : List Colour

/-- `Canvas::new`: width * height pixels, all black. -/
def Canvas.new (width height : ℕ) : Canvas :=
  ⟨width, height, List.replicate (width * height) Colour.black⟩

/-- `Canvas::pixel_at`: black when (x, y) is out of bounds, else the vector
entry at `y * width + x` (an index past the vector length would be a Rust
panic, modelled as `none`). -/
def Canvas.pixel_at (c : Canvas) (x y : ℕ) : Option Colour :=
  if x < c.width ∧ y < c.height then c.pixels.get? (y * c.width + x)
  else some Colour.black

/-- `Canvas::write_pixel`: no-op when (x, y) is out of bounds, else the
vector entry at `y * width + x` is replaced (again `none` models the panic
of an assignment past the vector length). -/
def Canvas.write_pixel (c : Canvas) (x y : ℕ) (colour : Colour) : Option Canvas :=
  if x < c.width ∧ y < c.height then
    if y * c.width + x < c.pixels.length then
      some { c with pixels := c.pixels.set (y * c.width + x) colour }
    else none
  else some c

/-- Rust `f64::clamp(lo, hi)`. -/
def clampQ (x lo hi : ℚ) : ℚ := if x < lo then lo else if hi < x then hi else x

/-- Rust `expr as u8` on a float: saturating cast, truncating toward zero
(after the `clamp(0,1) * 255` of the render paths the value is within
[0, 255], where the cast is the floor). -/
def f64_as_u8 (x : ℚ) : ℕ :=
  if x < 0 then 0 else min 255 (Int.toNat ⌊x⌋)

/-- One channel byte of `render_context.rs`:
`(value.clamp(0.0, 1.0) * 255.0) as u8`. -/
def channel_byte (v : ℚ) : ℕ := f64_as_u8 (clampQ v 0 1 * 255)

/-- Modelled from the spec: the byte the spec promises,
`round(clamp(value,0,1) * 255)` (`round` of a non-negative value rounds
half up, as Rust `f64::round` does away from zero). -/
def channel_byte_spec (v : ℚ) : ℕ := Int.toNat (round (clampQ v 0 1 * 255))

/-- The four RGBA writes of `render_context.rs` at one `buffer_index`:
red, green, blue channel bytes, then alpha 255. -/
def write_rgba (buffer : List ℕ) (buffer_index : ℕ) (c : Colour) : List ℕ :=
  ((((buffer.set buffer_index (channel_byte c.r)).set
      (buffer_index + 1) (channel_byte c.g)).set
      (buffer_index + 2) (channel_byte c.b)).set
      (buffer_index + 3) 255)

/-- `RenderContext::update_buffer_from_colours`: for the i-th colour the
four bytes at `i * 4` are written. -/
def update_buffer_from_colours (colours : List Colour) (buffer : List ℕ) : List ℕ :=
  colours.enum.foldl (fun buf ic => write_rgba buf (ic.1 * 4) ic.2) buffer

/-- The byte-buffer construction of `RenderContext::render_tile`,
parametrised by the per-pixel colour computation (the claim under study is
about the byte layout, not the scene trace): a zeroed
`tile_width * tile_height * 4` buffer, then row-major per-pixel RGBA writes
at `(local_y * tile_width + local_x) * 4`. -/
def render_tile_bytes (colourOf : ℕ → ℕ → Colour) (tile_width tile_height : ℕ) : List ℕ :=
  (List.range tile_height).foldl
    (fun buf local_y =>
      (List.range tile_width).foldl
        (fun buf2 local_x =>
          write_rgba buf2 ((local_y * tile_width + local_x) * 4) (colourOf local_x local_y))
        buf)
    (List.replicate (tile_width * tile_height * 4) 0)

end Raytracer

namespace Raytracer

/-- The accumulator fold behind `min_by_t`: starting from `some a` it
returns a least element among `a` and the list. -/
theorem min_by_t_go_spec (xs : List Intersection) :
    ∀ a : Intersection,
      ∃ m, xs.foldl
          (fun acc i =>
            match acc with
            | none => some i
            | some b => if b.t < i.t then some b else some i)
          (some a) = some m ∧
        (m = a ∨ m ∈ xs) ∧ m.t ≤ a.t ∧ ∀ j ∈ xs, m.t ≤ j.t := by
  induction xs with
  | nil => intro a; exact ⟨a, rfl, Or.inl rfl, le_refl _, by simp⟩
  | cons x xs ih =>
    intro a
    by_cases hlt : a.t < x.t
    · obtain ⟨m, hm, hmem, hle, hmin⟩ := ih a
      refine ⟨m, by simpa [hlt] using hm, ?_, hle, ?_⟩
      · rcases hmem with h | h
        · exact Or.inl h
        · exact Or.inr (List.mem_cons_of_mem _ h)
      · intro j hj
        rcases List.mem_cons.mp hj with rfl | hj
        · exact le_trans hle (le_of_lt hlt)
        · exact hmin j hj
    · obtain ⟨m, hm, hmem, hle, hmin⟩ := ih x
      refine ⟨m, by simpa [hlt] using hm, ?_, ?_, ?_⟩
      · rcases hmem with rfl | h
        · exact Or.inr (List.mem_cons_self _ _)
        · exact Or.inr (List.mem_cons_of_mem _ h)
      · exact le_trans hle (le_of_not_lt hlt)
      · intro j hj
        rcases List.mem_cons.mp hj with rfl | hj
        · exact hle
        · exact hmin j hj

/-- `min_by_t` of a non-empty list is a least element of the list. -/
theorem min_by_t_cons_spec (x : Intersection) (xs : List Intersection) :
    ∃ m, min_by_t (x :: xs) = some m ∧ m ∈ x :: xs ∧ ∀ j ∈ x :: xs, m.t ≤ j.t := by
  obtain ⟨m, hm, hmem, hle, hmin⟩ := min_by_t_go_spec xs x
  refine ⟨m, hm, ?_, ?_⟩
  · rcases hmem with rfl | h
    · exact List.mem_cons_self _ _
    · exact List.mem_cons_of_mem _ h
  · intro j hj
    rcases List.mem_cons.mp hj with rfl | hj
    · exact hle
    · exact hmin j hj

/-- `hit` returns `none` exactly when no listed t is non-negative. -/
theorem hit_eq_none_iff (xs : List Intersection) :
    hit xs = none ↔ ∀ i ∈ xs, i.t < 0 := by
  unfold hit
  rcases h : xs.filter (fun i => decide (0 ≤ i.t)) with _ | ⟨y, ys⟩
  · rw [h]
    rw [List.filter_eq_nil_iff] at h
    constructor
    · intro _ i hi
      have := h i hi
      simpa using this
    · intro _; rfl
  · rw [h]
    obtain ⟨m, hm, _, _⟩ := min_by_t_cons_spec y ys
    rw [hm]
    constructor
    · intro hc; cases hc
    · intro hall
      have hy : y ∈ xs.filter (fun i => decide (0 ≤ i.t)) := h ▸ List.mem_cons_self _ _
      have hyt : (0 : ℚ) ≤ y.t := by simpa using List.of_mem_filter hy
      exact absurd (hall y (List.mem_of_mem_filter hy)) (not_lt.mpr hyt)

/-- `hit` returns an element of the list with the least non-negative t. -/
theorem hit_eq_some_spec (xs : List Intersection) (m : Intersection)
    (h : hit xs = some m) :
    m ∈ xs ∧ 0 ≤ m.t ∧ ∀ j ∈ xs, 0 ≤ j.t → m.t ≤ j.t := by
  unfold hit at h
  rcases hf : xs.filter (fun i => decide (0 ≤ i.t)) with _ | ⟨y, ys⟩
  · rw [hf] at h; cases h
  · rw [hf] at h
    obtain ⟨m2, hm2, hmem, hmin⟩ := min_by_t_cons_spec y ys
    rw [hm2] at h
    have heq : m2 = m := Option.some.inj h
    rw [heq] at hmem hmin
    have hmemf : m ∈ xs.filter (fun i => decide (0 ≤ i.t)) := hf ▸ hmem
    refine ⟨List.mem_of_mem_filter hmemf, by simpa using List.of_mem_filter hmemf, ?_⟩
    intro j hj hjt
    have hjf : j ∈ xs.filter (fun i => decide (0 ≤ i.t)) :=
      List.mem_filter.mpr ⟨hj, by simpa using hjt⟩
    exact hmin j (hf ▸ hjf)

/-- C2: for every list of intersections, `hit` returns an intersection of
the list with the smallest non-negative t (`none` exactly when every listed
t is negative), and on the t-values [5, 7, -3, 2] it returns the
intersection with t = 2. -/
theorem C2_hit_smallest_nonneg :
    (∀ xs : List Intersection,
      (hit xs = none ↔ ∀ i ∈ xs, i.t < 0) ∧
      ∀ m, hit xs = some m → m ∈ xs ∧ 0 ≤ m.t ∧ ∀ j ∈ xs, 0 ≤ j.t → m.t ≤ j.t) ∧
    hit [⟨5, 0⟩, ⟨7, 0⟩, ⟨-3, 0⟩, ⟨2, 0⟩] = some ⟨2, 0⟩ :=
  ⟨fun xs => ⟨hit_eq_none_iff xs, fun m h => hit_eq_some_spec xs m h⟩, by decide⟩

/-- C2, applied: the hit of [5, 7, -3, 2] and of an all-negative list. -/
theorem C2_hit_smallest_nonneg_witness :
    hit [⟨5, 0⟩, ⟨7, 0⟩, ⟨-3, 0⟩, ⟨2, 0⟩] = some ⟨2, 0⟩ ∧
    hit [⟨-1, 0⟩, ⟨-2, 1⟩] = none :=
  ⟨C2_hit_smallest_nonneg.2,
   (C2_hit_smallest_nonneg.1 [⟨-1, 0⟩, ⟨-2, 1⟩]).1.mpr (by decide)⟩

/-- C7: for every ray and every plane, `local_intersect` returns no
intersection exactly when `|direction.y|` is within 50000 machine epsilons
of zero, and otherwise exactly one intersection with
t = -origin.y / direction.y tagged with the plane's id; the division only
happens with the divisor bounded away from zero, and the near-parallel case
is the ordinary empty result, not an error. -/
theorem C7_plane_local_intersect (rsqrt : ℚ → ℚ) (d : ShapeData) (r : Ray) :
    (|r.direction.y| < f64Epsilon * 50000 →
      local_intersect rsqrt ⟨.plane, d⟩ r = []) ∧
    (¬ |r.direction.y| < f64Epsilon * 50000 →
      local_intersect rsqrt ⟨.plane, d⟩ r = [⟨-r.origin.y / r.direction.y, d.id⟩]) := by
  constructor <;> intro h <;> simp [local_intersect, h]

/-- C7, applied: a coplanar ray misses, a downward ray from y = 1 hits the
plane at t = 1 tagged with the plane's id 0. -/
theorem C7_plane_local_intersect_witness :
    local_intersect (fun q => q) ⟨.plane, Plane.new.data⟩
      ⟨Tuple.point 0 0 0, Tuple.vector 0 0 1⟩ = [] ∧
    local_intersect (fun q => q) ⟨.plane, Plane.new.data⟩
      ⟨Tuple.point 0 1 0, Tuple.vector 0 (-1) 0⟩ = [⟨1, 0⟩] := by
  constructor
  · exact (C7_plane_local_intersect (fun q => q) Plane.new.data _).1
      (by norm_num [Tuple.vector, f64Epsilon])
  · have h := (C7_plane_local_intersect (fun q => q) Plane.new.data
      ⟨Tuple.point 0 1 0, Tuple.vector 0 (-1) 0⟩).2
      (by norm_num [Tuple.vector, f64Epsilon])
    rw [h]
    norm_num [Tuple.point, Tuple.vector, Plane.new]

/-- C10: on any canvas whose pixel vector has `width * height` entries (as
`Canvas::new` builds and `write_pixel` preserves), an in-bounds
`write_pixel` stores the colour where `pixel_at` re-reads it and leaves
every other pixel unchanged; an out-of-bounds `write_pixel` changes nothing
and an out-of-bounds `pixel_at` is black; neither operation can panic. -/
theorem C10_canvas_bounds_safe (c : Canvas) (x y : ℕ) (col : Colour)
    (hlen : c.pixels.length = c.width * c.height) :
    (x < c.width ∧ y < c.height →
      ∃ c2, c.write_pixel x y col = some c2 ∧
        c2.pixel_at x y = some col ∧
        c2.pixels.length = c2.width * c2.height ∧
        ∀ x2 y2, ¬(x2 = x ∧ y2 = y) → c2.pixel_at x2 y2 = c.pixel_at x2 y2) ∧
    (¬(x < c.width ∧ y < c.height) →
      c.write_pixel x y col = some c ∧ c.pixel_at x y = some Colour.black) ∧
    (c.pixel_at x y).isSome = true := by
  have hidx : ∀ a b : ℕ, a < c.width → b < c.height →
      b * c.width + a < c.pixels.length := by
    intro a b ha hb
    rw [hlen]
    calc b * c.width + a < b * c.width + c.width := by omega
    _ = (b + 1) * c.width := by ring
    _ ≤ c.height * c.width := Nat.mul_le_mul_right _ (by omega)
    _ = c.width * c.height := Nat.mul_comm _ _
  refine ⟨?_, ?_, ?_⟩
  · rintro ⟨hx, hy⟩
    have hi := hidx x y hx hy
    refine ⟨{ c with pixels := c.pixels.set (y * c.width + x) col },
      by simp [Canvas.write_pixel, hx, hy, hi], ?_, ?_, ?_⟩
    · simp only [Canvas.pixel_at, hx, hy, and_self, if_pos]
      rw [List.get?_eq_getElem?]
      exact List.getElem?_set_eq_of_lt col hi
    · simpa using hlen
    · intro x2 y2 hne
      simp only [Canvas.pixel_at]
      by_cases hin : x2 < c.width ∧ y2 < c.height
      · rcases hin with ⟨hx2, hy2⟩
        have hw : 0 < c.width := by omega
        have hii : y * c.width + x ≠ y2 * c.width + x2 := by
          intro heq
          apply hne
          have ex : x = x2 := by
            have e1 : (y * c.width + x) % c.width = x % c.width := by
              rw [Nat.mul_comm]; exact Nat.mul_add_mod _ _ _
            have e2 : (y2 * c.width + x2) % c.width = x2 % c.width := by
              rw [Nat.mul_comm]; exact Nat.mul_add_mod _ _ _
            rw [heq, e2] at e1
            rw [Nat.mod_eq_of_lt hx2, Nat.mod_eq_of_lt hx] at e1
            exact e1.symm
          have ey : y = y2 := by
            have e1 : (y * c.width + x) / c.width = y := by
              rw [Nat.add_comm, Nat.add_mul_div_right _ _ hw, Nat.div_eq_of_lt hx]
              omega
            have e2 : (y2 * c.width + x2) / c.width = y2 := by
              rw [Nat.add_comm, Nat.add_mul_div_right _ _ hw, Nat.div_eq_of_lt hx2]
              omega
            rw [heq, e2] at e1
            omega
          exact ⟨ex.symm, ey.symm⟩
        simp only [hx2, hy2, and_self, if_pos]
        rw [List.get?_eq_getElem?, List.get?_eq_getElem?]
        exact List.getElem?_set_ne hii
      · simp [hin]
  · intro hne
    refine ⟨by simp [Canvas.write_pixel, hne], by simp [Canvas.pixel_at, hne]⟩
  · by_cases hin : x < c.width ∧ y < c.height
    · simp only [Canvas.pixel_at, hin, and_self, if_pos]
      rw [List.get?_eq_getElem?]
      rcases hin with ⟨hx, hy⟩
      simp [List.getElem?_eq_getElem (hidx x y hx hy)]
    · simp [Canvas.pixel_at, hin]

/-- C10, applied: a 2-by-3 canvas stores and re-reads a pixel, and an
out-of-bounds read is black. -/
theorem C10_canvas_bounds_safe_witness :
    ∃ c2, (Canvas.new 2 3).write_pixel 1 2 ⟨1, 0, 0⟩ = some c2 ∧
      c2.pixel_at 1 2 = some ⟨1, 0, 0⟩ ∧
      (Canvas.new 2 3).pixel_at 5 7 = some Colour.black := by
  have h := C10_canvas_bounds_safe (Canvas.new 2 3) 1 2 ⟨1, 0, 0⟩ (by simp [Canvas.new])
  obtain ⟨c2, hw, hr, _, _⟩ := h.1 (by simp [Canvas.new])
  have h2 := (C10_canvas_bounds_safe (Canvas.new 2 3) 5 7 ⟨1, 0, 0⟩
    (by simp [Canvas.new])).2.1 (by simp [Canvas.new])
  exact ⟨c2, hw, hr, h2.2⟩

/-- The checkerboard sign of the cofactor expansion is a power of -1. -/
theorem cofactor_sign_eq (k : ℕ) :
    (if k % 2 = 0 then (1 : ℚ) else -1) = (-1) ^ k := by
  rcases Nat.even_or_odd k with h | h
  · rw [if_pos (Nat.even_iff.mp h), h.neg_one_pow]
  · rw [if_neg (by rw [Nat.odd_iff.mp h]; omega), h.neg_one_pow]

/-- The source's first-row cofactor expansion computes the mathematical
determinant, for every dimension at least 2. -/
theorem det_eq_matrix_det : ∀ (n : ℕ) (m : Mat (n + 2)),
    determinant (n + 2) m = Matrix.det (Matrix.of m) := by
  intro n
  induction n with
  | zero =>
    intro m
    rw [Matrix.det_fin_two]
    rfl
  | succ k ih =>
    intro m
    show determinant (k + 3) m = (Matrix.of m).det
    rw [determinant_succ_succ_succ, Matrix.det_succ_row_zero]
    refine Finset.sum_congr rfl ?_
    intro col _
    have hsub : Matrix.of (submatrix m 0 col) =
        (Matrix.of m).submatrix Fin.succ col.succAbove := by
      ext i j
      simp [submatrix, Fin.zero_succAbove]
    unfold cofactor
    rw [ih (submatrix m 0 col), hsub]
    simp only [Fin.val_zero, Nat.zero_add, Matrix.of_apply]
    rw [cofactor_sign_eq]
    ring

/-- The source's cofactor is an entry of the mathematical adjugate. -/
theorem cofactor_eq_adjugate (m : Mat 4) (r c : Fin 4) :
    cofactor 3 m r c = Matrix.adjugate (Matrix.of m) c r := by
  rw [Matrix.adjugate_fin_succ_eq_det_submatrix]
  unfold cofactor
  rw [det_eq_matrix_det 1 (submatrix m r c)]
  have hsub : Matrix.of (submatrix m r c) =
      (Matrix.of m).submatrix r.succAbove c.succAbove := by
    ext i j
    simp [submatrix]
  rw [hsub, cofactor_sign_eq]

/-- `matMul` is the mathematical matrix product, entry by entry. -/
theorem matMul_eq_mul (a b : Mat 4) :
    matMul a b = fun i j => (Matrix.of a * Matrix.of b) i j := by
  funext i j
  rw [Matrix.mul_apply, Fin.sum_univ_four]
  rfl

/-- `Matrix::identity` is the mathematical identity matrix. -/
theorem identityM_eq_one :
    identityM = fun i j => (1 : Matrix (Fin 4) (Fin 4) ℚ) i j := by
  funext i j
  simp [identityM, Matrix.one_apply]

/-- Exactly equal matrices are epsilon-approximately equal. -/
theorem matApproxEq_of_eq {a b : Mat 4} (h : a = b) : matApproxEq a b := by
  subst h
  intro i j
  simp only [sub_self, abs_zero]
  norm_num [f64Epsilon]

/-- On an invertible matrix, `Matrix::inverse` computes the mathematical
nonsingular inverse. -/
theorem inverse_eq_nonsing_inv (m : Mat 4) (h : determinant 4 m ≠ 0) :
    inverse m = some (fun i j => (Matrix.of m)⁻¹ i j) := by
  unfold inverse
  rw [if_neg h]
  congr 1
  funext i j
  rw [Matrix.inv_def, Ring.inverse_eq_inv]
  rw [Matrix.smul_apply, cofactor_eq_adjugate, det_eq_matrix_det 2 m]
  rw [div_eq_inv_mul]
  rfl

/-- C8: the identity matrix is the multiplicative unit, and for every
invertible 4-by-4 matrix M, `M.inverse()` exists, `M * M.inverse()` is
epsilon-approximately the identity (here exactly), and
`M.inverse().inverse()` is epsilon-approximately M (here exactly). -/
theorem C8_inverse_roundtrip :
    (∀ a : Mat 4, matMul identityM a = a ∧ matMul a identityM = a) ∧
    ∀ m : Mat 4, determinant 4 m ≠ 0 →
      ∃ mi, inverse m = some mi ∧ matApproxEq (matMul m mi) identityM ∧
        ∃ mii, inverse mi = some mii ∧ matApproxEq mii m := by
  constructor
  · intro a
    constructor
    · funext i j
      fin_cases i <;> simp +decide [matMul, dot4, identityM]
    · funext i j
      fin_cases j <;> simp +decide [matMul, dot4, identityM]
  · intro m hdet
    have hA : IsUnit (Matrix.of m).det :=
      isUnit_iff_ne_zero.mpr (by rw [← det_eq_matrix_det 2 m]; exact hdet)
    refine ⟨fun i j => (Matrix.of m)⁻¹ i j, inverse_eq_nonsing_inv m hdet, ?_, ?_⟩
    · apply matApproxEq_of_eq
      rw [matMul_eq_mul, identityM_eq_one]
      have hmul : Matrix.of m * (Matrix.of m)⁻¹ = 1 :=
        Matrix.mul_nonsing_inv _ hA
      exact funext fun i => funext fun j => by rw [show Matrix.of
        (fun i j => (Matrix.of m)⁻¹ i j) = (Matrix.of m)⁻¹ from rfl, hmul]
    · have hdet2 : determinant 4 (fun i j => (Matrix.of m)⁻¹ i j) ≠ 0 := by
        rw [det_eq_matrix_det 2]
        rw [show Matrix.of (fun i j => (Matrix.of m)⁻¹ i j) = (Matrix.of m)⁻¹ from rfl]
        rw [Matrix.det_nonsing_inv, Ring.inverse_eq_inv]
        exact inv_ne_zero (isUnit_iff_ne_zero.mp hA)
      refine ⟨_, inverse_eq_nonsing_inv _ hdet2, ?_⟩
      intro i j
      rw [show Matrix.of (fun i j => (Matrix.of m)⁻¹ i j) = (Matrix.of m)⁻¹ from rfl]
      rw [Matrix.nonsing_inv_nonsing_inv _ hA]
      simp only [sub_self, abs_zero]
      norm_num [f64Epsilon]

/-- C8, applied: the scaling matrix diag(2, 3, 4, 1) has determinant 24,
its inverse exists, and the product with its inverse is approximately the
identity. -/
theorem C8_inverse_roundtrip_witness :
    ∃ mi, inverse (scaling 2 3 4) = some mi ∧
      matApproxEq (matMul (scaling 2 3 4) mi) identityM := by
  obtain ⟨mi, h1, h2, _⟩ := C8_inverse_roundtrip.2 (scaling 2 3 4)
    (by simp +decide [determinant, submatrix, scaling, Fin.sum_univ_four,
        Fin.sum_univ_three, Fin.sum_univ_succ])
  exact ⟨mi, h1, h2⟩

/-- Sphere A of the nested-glass scene: `Sphere::glass()` scaled by 2 and
registered first (id 0); the scaled inverse transform is cached as
`set_transform` computes it. -/
def glass_sphere_a : Shape :=
  ⟨.sphere, ⟨0, scaling 2 2 2, scaling (1/2) (1/2) (1/2),
    { Material.new with transparency := 1, refractive_index := 3/2 }⟩⟩

/-- Sphere B: `Sphere::glass()` translated by -0.25 in z, refractive index
set to 2.0, id 1. -/
def glass_sphere_b : Shape :=
  ⟨.sphere, ⟨1, translation 0 0 (-(1/4)), translation 0 0 (1/4),
    { Material.new with transparency := 1, refractive_index := 2 }⟩⟩

/-- Sphere C: `Sphere::glass()` translated by +0.25 in z, refractive index
set to 2.5, id 2. -/
def glass_sphere_c : Shape :=
  ⟨.sphere, ⟨2, translation 0 0 (1/4), translation 0 0 (-(1/4)),
    { Material.new with transparency := 1, refractive_index := 5/2 }⟩⟩

/-- The nested-glass registry: A, B, C registered in that order. -/
def nested_glass_registry : ShapeRegistry :=
  ⟨[glass_sphere_a, glass_sphere_b, glass_sphere_c]⟩

/-- The six ordered intersections of the nested-glass scene along the ray,
as t-value and object id. -/
def nested_glass_xs : List Intersection :=
  [⟨2, 0⟩, ⟨11/4, 1⟩, ⟨13/4, 2⟩, ⟨19/4, 1⟩, ⟨21/4, 2⟩, ⟨6, 0⟩]

/-- The nested-glass ray: from (0, 0, -4) along +z. -/
def nested_glass_ray : Ray := ⟨Tuple.point 0 0 (-4), Tuple.vector 0 0 1⟩

/-- The cached inverse transforms of the nested-glass spheres really invert
their transforms. -/
theorem nested_glass_inverses_consistent :
    matMul glass_sphere_a.data.transform glass_sphere_a.data.inverse_transform = identityM ∧
    matMul glass_sphere_b.data.transform glass_sphere_b.data.inverse_transform = identityM ∧
    matMul glass_sphere_c.data.transform glass_sphere_c.data.inverse_transform = identityM := by
  refine ⟨?_, ?_, ?_⟩ <;>
    · funext i j
      fin_cases i <;> fin_cases j <;>
        simp +decide [glass_sphere_a, glass_sphere_b, glass_sphere_c, matMul, dot4,
          scaling, translation, identityM]

/-- C5: on the three nested glass spheres (refractive indices 1.5, 2.0, 2.5;
the outer sphere scaled by 2, the others translated -0.25 and +0.25 in z)
and the ray from (0,0,-4) along +z, `prepare_computations` at each of the
six ordered intersections, given the full ordered list, yields the (n1, n2)
pairs (1,1.5), (1.5,2), (2,2.5), (2.5,2.5), (2.5,1.5), (1.5,1): n1 read
from the containment-stack top before the update for the hit's object, n2
after. -/
theorem C5_nested_glass_n1_n2 (rsqrt : ℚ → ℚ) :
    (prepare_computations rsqrt ⟨2, 0⟩ nested_glass_ray nested_glass_registry
        (some nested_glass_xs)).map (Option.map fun c => (c.n1, c.n2)) =
      some (some (1, 3/2)) ∧
    (prepare_computations rsqrt ⟨11/4, 1⟩ nested_glass_ray nested_glass_registry
        (some nested_glass_xs)).map (Option.map fun c => (c.n1, c.n2)) =
      some (some (3/2, 2)) ∧
    (prepare_computations rsqrt ⟨13/4, 2⟩ nested_glass_ray nested_glass_registry
        (some nested_glass_xs)).map (Option.map fun c => (c.n1, c.n2)) =
      some (some (2, 5/2)) ∧
    (prepare_computations rsqrt ⟨19/4, 1⟩ nested_glass_ray nested_glass_registry
        (some nested_glass_xs)).map (Option.map fun c => (c.n1, c.n2)) =
      some (some (5/2, 5/2)) ∧
    (prepare_computations rsqrt ⟨21/4, 2⟩ nested_glass_ray nested_glass_registry
        (some nested_glass_xs)).map (Option.map fun c => (c.n1, c.n2)) =
      some (some (5/2, 3/2)) ∧
    (prepare_computations rsqrt ⟨6, 0⟩ nested_glass_ray nested_glass_registry
        (some nested_glass_xs)).map (Option.map fun c => (c.n1, c.n2)) =
      some (some (3/2, 1)) := by
  refine ⟨?_, ?_, ?_, ?_, ?_, ?_⟩ <;>
    (simp +decide [prepare_computations, refraction_walk, intersection_eq,
      nested_glass_registry, nested_glass_xs, nested_glass_ray,
      ShapeRegistry.get, List.find?, glass_sphere_a, glass_sphere_b,
      glass_sphere_c, Material.new]) <;>
    norm_num

/-- The square roots met by the shadow scene, as `f64::sqrt` would return
them: 16 from the light distance, 4 from the shadow ray's sphere
discriminant. -/
def shadow_sqrt : ℚ → ℚ := fun q => if q = 16 then 4 else if q = 4 then 2 else 0

/-- The shadow scene's light, at (0, 0, -4). -/
def shadow_light : Light := ⟨Tuple.point 0 0 (-4), Colour.white⟩

/-- The shadow scene: one default-material unit sphere translated to
z = +3 (behind the origin, away from the light), id 0. -/
def shadow_world : World :=
  ⟨⟨[⟨.sphere, ⟨0, translation 0 0 3, translation 0 0 (-3), Material.new⟩⟩]⟩,
   some shadow_light⟩

/-- C6 as literally stated is false: from the origin of the shadow scene,
the shadow ray towards the light has intersections (t = -4 and t = -2, the
sphere sits behind the point), so an intersection with t strictly below the
light distance 4 exists, yet `is_shadowed` answers false. -/
theorem C6_is_shadowed_counterexample :
    shadow_world.is_shadowed shadow_sqrt (Tuple.point 0 0 0) = some false ∧
    Tuple.magnitude shadow_sqrt (shadow_light.position - Tuple.point 0 0 0) = 4 ∧
    (shadow_world.intersect_world shadow_sqrt
        ⟨Tuple.point 0 0 0,
         Tuple.normalise shadow_sqrt (shadow_light.position - Tuple.point 0 0 0)⟩).any
      (fun i => decide (i.t < 4)) = true := by
  refine ⟨?_, ?_, ?_⟩ <;>
    (simp +decide [World.is_shadowed, World.intersect_world, Shape.intersect,
      local_intersect, Ray.transform, matApply, dot4, translation, shadow_world,
      shadow_light, shadow_sqrt, Tuple.point, Tuple.vector, Tuple.normalise,
      Tuple.magnitude, Tuple.dot, Tuple.sub_def, Tuple.smul_def, Tuple.add_def,
      Tuple.neg_def, sort_by_t, insert_by_t, hit, min_by_t]) <;>
    (try norm_num) <;>
    (simp only [sort_by_t, insert_by_t]) <;>
    (simp +decide [hit, min_by_t, insert_by_t])

/-- C6, amended: with a light present, `is_shadowed` answers true exactly
when some intersection of the ray from the point towards the light has
*non-negative* t strictly less than the distance to the light (the code
selects the hit, i.e. the least non-negative t, so intersections behind the
point never shadow it). -/
theorem C6_is_shadowed_amended (rsqrt : ℚ → ℚ) (w : World) (l : Light) (p : Tuple)
    (hl : w.light = some l) :
    w.is_shadowed rsqrt p =
      some ((w.intersect_world rsqrt
          ⟨p, Tuple.normalise rsqrt (l.position - p)⟩).any
        (fun i => decide (0 ≤ i.t) &&
          decide (i.t < Tuple.magnitude rsqrt (l.position - p)))) := by
  have hmain : ∀ (xs : List Intersection) (d : ℚ),
      (match hit xs with
        | some h => decide (h.t < d)
        | none => false) =
      xs.any (fun i => decide (0 ≤ i.t) && decide (i.t < d)) := by
    intro xs d
    rcases hh : hit xs with _ | h
    · have hall := (hit_eq_none_iff xs).mp hh
      symm
      rw [List.any_eq_false]
      intro i hi
      simp only [Bool.and_eq_true, decide_eq_true_eq]
      rintro ⟨h0, _⟩
      exact absurd (hall i hi) (not_lt.mpr h0)
    · obtain ⟨hmem, h0, hmin⟩ := hit_eq_some_spec xs h hh
      by_cases hlt : h.t < d
      · have hany : xs.any (fun i => decide (0 ≤ i.t) && decide (i.t < d)) = true :=
          List.any_eq_true.mpr ⟨h, hmem, by simp [h0, hlt]⟩
        rw [hany]
        simp [hlt]
      · have hany : xs.any (fun i => decide (0 ≤ i.t) && decide (i.t < d)) = false := by
          rw [List.any_eq_false]
          intro i hi
          simp only [Bool.and_eq_true, decide_eq_true_eq]
          rintro ⟨hi0, hid⟩
          exact absurd (lt_of_le_of_lt (hmin i hi hi0) hid) hlt
        rw [hany]
        simp [hlt]
  unfold World.is_shadowed
  rw [hl]
  exact congrArg some (hmain
    (w.intersect_world rsqrt ⟨p, Tuple.normalise rsqrt (l.position - p)⟩)
    (Tuple.magnitude rsqrt (l.position - p)))

/-- C6 amended, applied to the shadow scene at the origin. -/
theorem C6_is_shadowed_amended_witness :
    shadow_world.is_shadowed shadow_sqrt (Tuple.point 0 0 0) =
      some ((shadow_world.intersect_world shadow_sqrt
          ⟨Tuple.point 0 0 0,
           Tuple.normalise shadow_sqrt (shadow_light.position - Tuple.point 0 0 0)⟩).any
        (fun i => decide (0 ≤ i.t) &&
          decide (i.t < Tuple.magnitude shadow_sqrt
            (shadow_light.position - Tuple.point 0 0 0)))) :=
  C6_is_shadowed_amended shadow_sqrt shadow_world shadow_light (Tuple.point 0 0 0) rfl

/-- `write_rgba` never changes the buffer length. -/
theorem write_rgba_length (buf : List ℕ) (bi : ℕ) (c : Colour) :
    (write_rgba buf bi c).length = buf.length := by
  simp [write_rgba]

/-- `write_rgba` leaves positions below its block untouched. -/
theorem write_rgba_get_below (buf : List ℕ) (bi : ℕ) (c : Colour) (j : ℕ)
    (hj : j < bi) :
    (write_rgba buf bi c).get? j = buf.get? j := by
  unfold write_rgba
  rw [List.get?_eq_getElem?, List.get?_eq_getElem?]
  rw [List.getElem?_set_ne (by omega), List.getElem?_set_ne (by omega),
    List.getElem?_set_ne (by omega), List.getElem?_set_ne (by omega)]

/-- The four bytes `write_rgba` wrote, read back. -/
theorem write_rgba_get_block (buf : List ℕ) (bi : ℕ) (c : Colour)
    (h : bi + 3 < buf.length) :
    (write_rgba buf bi c).get? bi = some (channel_byte c.r) ∧
    (write_rgba buf bi c).get? (bi + 1) = some (channel_byte c.g) ∧
    (write_rgba buf bi c).get? (bi + 2) = some (channel_byte c.b) ∧
    (write_rgba buf bi c).get? (bi + 3) = some 255 := by
  unfold write_rgba
  refine ⟨?_, ?_, ?_, ?_⟩ <;> rw [List.get?_eq_getElem?]
  · rw [List.getElem?_set_ne (by omega), List.getElem?_set_ne (by omega),
      List.getElem?_set_ne (by omega)]
    exact List.getElem?_set_eq_of_lt _ (by simpa using by omega)
  · rw [List.getElem?_set_ne (by omega), List.getElem?_set_ne (by omega)]
    exact List.getElem?_set_eq_of_lt _ (by simp; omega)
  · rw [List.getElem?_set_ne (by omega)]
    exact List.getElem?_set_eq_of_lt _ (by simp; omega)
  · exact List.getElem?_set_eq_of_lt _ (by simp; omega)

/-- The state of the buffer after folding `write_rgba` over colours
enumerated from position m: the length is kept, everything below byte 4m is
kept, and the k-th processed colour occupies the four bytes at 4(m+k). -/
theorem update_fold_spec (cs : List Colour) : ∀ (m : ℕ) (buf : List ℕ),
    4 * (m + cs.length) ≤ buf.length →
    ((cs.enumFrom m).foldl (fun b ic => write_rgba b (ic.1 * 4) ic.2) buf).length
        = buf.length ∧
    (∀ j, j < 4 * m →
      ((cs.enumFrom m).foldl (fun b ic => write_rgba b (ic.1 * 4) ic.2) buf).get? j
        = buf.get? j) ∧
    ∀ k c, cs.get? k = some c →
      ((cs.enumFrom m).foldl (fun b ic => write_rgba b (ic.1 * 4) ic.2) buf).get?
          (4 * (m + k)) = some (channel_byte c.r) ∧
      ((cs.enumFrom m).foldl (fun b ic => write_rgba b (ic.1 * 4) ic.2) buf).get?
          (4 * (m + k) + 1) = some (channel_byte c.g) ∧
      ((cs.enumFrom m).foldl (fun b ic => write_rgba b (ic.1 * 4) ic.2) buf).get?
          (4 * (m + k) + 2) = some (channel_byte c.b) ∧
      ((cs.enumFrom m).foldl (fun b ic => write_rgba b (ic.1 * 4) ic.2) buf).get?
          (4 * (m + k) + 3) = some 255 := by
  induction cs with
  | nil =>
    intro m buf _
    refine ⟨rfl, fun j _ => rfl, ?_⟩
    intro k c hkc
    simp at hkc
  | cons c0 cs ih =>
    intro m buf hlen
    rw [List.enumFrom_cons, List.foldl_cons]
    have hwlen : (write_rgba buf (m * 4) c0).length = buf.length :=
      write_rgba_length buf (m * 4) c0
    have hlen2 : 4 * (m + 1 + cs.length) ≤ (write_rgba buf (m * 4) c0).length := by
      rw [hwlen]
      simp only [List.length_cons] at hlen
      omega
    obtain ⟨ihlen, ihbelow, ihblock⟩ := ih (m + 1) (write_rgba buf (m * 4) c0) hlen2
    refine ⟨by rw [ihlen, hwlen], ?_, ?_⟩
    · intro j hj
      rw [ihbelow j (by omega)]
      exact write_rgba_get_below buf (m * 4) c0 j (by omega)
    · intro k c hkc
      match k, hkc with
      | 0, hkc =>
        simp only [List.get?_cons_zero, Option.some.injEq] at hkc
        subst hkc
        have hblock := write_rgba_get_block buf (m * 4) c0
          (by simp only [List.length_cons] at hlen; omega)
        have e0 : 4 * (m + 0) = m * 4 := by omega
        rw [e0]
        refine ⟨?_, ?_, ?_, ?_⟩
        · rw [ihbelow _ (by omega)]; exact hblock.1
        · rw [ihbelow _ (by omega)]; exact hblock.2.1
        · rw [ihbelow _ (by omega)]; exact hblock.2.2.1
        · rw [ihbelow _ (by omega)]; exact hblock.2.2.2
      | k + 1, hkc =>
        simp only [List.get?_cons_succ] at hkc
        have := ihblock k c hkc
        have e : 4 * (m + (k + 1)) = 4 * (m + 1 + k) := by omega
        rw [e]
        exact this

/-- C9, amended: `update_buffer_from_colours` keeps the buffer length and,
for the k-th colour, writes the four bytes at 4k as truncated channels
(`(clamp(v,0,1) * 255) as u8`, the floor, not the round) and alpha 255 —
row-major RGBA8. -/
theorem C9_rgba_bytes_truncated (colours : List Colour) (buffer : List ℕ)
    (hlen : 4 * colours.length ≤ buffer.length) :
    (update_buffer_from_colours colours buffer).length = buffer.length ∧
    ∀ k c, colours.get? k = some c →
      (update_buffer_from_colours colours buffer).get? (4 * k)
          = some (channel_byte c.r) ∧
      (update_buffer_from_colours colours buffer).get? (4 * k + 1)
          = some (channel_byte c.g) ∧
      (update_buffer_from_colours colours buffer).get? (4 * k + 2)
          = some (channel_byte c.b) ∧
      (update_buffer_from_colours colours buffer).get? (4 * k + 3) = some 255 := by
  have h := update_fold_spec colours 0 buffer (by omega)
  obtain ⟨h1, _, h3⟩ := h
  have henum : colours.enum = colours.enumFrom 0 := rfl
  unfold update_buffer_from_colours
  rw [henum]
  refine ⟨h1, ?_⟩
  intro k c hkc
  have := h3 k c hkc
  simpa using this

/-- C9, applied: the single colour (0.5, 0, 1) produces the bytes
[127, 0, 255, 255]. -/
theorem C9_rgba_bytes_truncated_witness :
    (update_buffer_from_colours [⟨1/2, 0, 1⟩] [0, 0, 0, 0]).get? 0 = some 127 ∧
    (update_buffer_from_colours [⟨1/2, 0, 1⟩] [0, 0, 0, 0]).get? 3 = some 255 := by
  obtain ⟨hr, _, _, ha⟩ :=
    (C9_rgba_bytes_truncated [⟨1/2, 0, 1⟩] [0, 0, 0, 0] (by norm_num)).2 0 ⟨1/2, 0, 1⟩ rfl
  have hb : channel_byte (1/2) = 127 := by
    norm_num [channel_byte, f64_as_u8, clampQ]
    decide
  rw [hb] at hr
  exact ⟨hr, ha⟩

/-- C9 as stated is false: the claim promises `round(clamp(v,0,1)*255)`,
but the code casts with `as u8`, which truncates: at channel value 0.5 the
code writes byte 127 while round(127.5) is 128. -/
theorem C9_rgba_round_counterexample :
    channel_byte (1/2) = 127 ∧ channel_byte_spec (1/2) = 128 ∧
    (update_buffer_from_colours [⟨1/2, 0, 1⟩] [0, 0, 0, 0]).get? 0 = some 127 := by
  refine ⟨?_, ?_, ?_⟩
  · norm_num [channel_byte, f64_as_u8, clampQ]
    decide
  · norm_num [channel_byte_spec, clampQ, round_eq]
    decide
  · norm_num [update_buffer_from_colours, write_rgba, channel_byte, f64_as_u8,
      clampQ, List.enumFrom]
    decide

/-- The fuel-indexed colour resolution agrees with the recursive one as
soon as the fuel exceeds the bounce budget: the mutual recursion re-enters
`colour_at` at most `bounces_remaining` more times. -/
theorem fuel_agrees (rsqrt : ℚ → ℚ) (rpow : ℚ → ℚ → ℚ) : ∀ fuel : ℕ,
    (∀ w r b, b.toNat < fuel →
      World.colour_at_fuel rsqrt rpow fuel w r b =
        some (World.colour_at rsqrt rpow w r b)) ∧
    (∀ w c b, b.toNat ≤ fuel →
      World.reflected_colour_fuel rsqrt rpow fuel w c b =
        some (World.reflected_colour rsqrt rpow w c b)) ∧
    (∀ w c b, b.toNat ≤ fuel →
      World.shade_hit_fuel rsqrt rpow fuel w c b =
        some (World.shade_hit rsqrt rpow w c b)) := by
  have hSfromR : ∀ fuel : ℕ,
      (∀ w c b, b.toNat ≤ fuel →
        World.reflected_colour_fuel rsqrt rpow fuel w c b =
          some (World.reflected_colour rsqrt rpow w c b)) →
      ∀ w c b, b.toNat ≤ fuel →
        World.shade_hit_fuel rsqrt rpow fuel w c b =
          some (World.shade_hit rsqrt rpow w c b) := by
    intro fuel hR w c b hb
    unfold World.shade_hit_fuel World.shade_hit
    rcases hs : World.is_shadowed rsqrt w c.over_point with _ | sh
    · simp [hs]
    · simp only [hs]
      rw [hR w c b hb]
      rcases hrv : World.reflected_colour rsqrt rpow w c b with _ | rv <;> simp [hrv]
  intro fuel
  induction fuel with
  | zero =>
    have hR : ∀ w c b, b.toNat ≤ 0 →
        World.reflected_colour_fuel rsqrt rpow 0 w c b =
          some (World.reflected_colour rsqrt rpow w c b) := by
      intro w c b hb
      have hb0 : b ≤ 0 := by omega
      unfold World.reflected_colour_fuel World.reflected_colour
      simp [hb0]
    exact ⟨fun w r b hb => absurd hb (by omega), hR, hSfromR 0 hR⟩
  | succ f ih =>
    have hC : ∀ w r b, b.toNat < f + 1 →
        World.colour_at_fuel rsqrt rpow (f + 1) w r b =
          some (World.colour_at rsqrt rpow w r b) := by
      intro w r b hb
      unfold World.colour_at_fuel World.colour_at
      rcases hh : hit (World.intersect_world rsqrt w r) with _ | h
      · simp [hh]
      · simp only [hh]
        rcases hp : prepare_computations rsqrt h r w.registry
            (some (World.intersect_world rsqrt w r)) with _ | oc
        · simp [hp]
        · rcases oc with _ | comp
          · simp [hp]
          · simp only [hp]
            exact ih.2.2 w comp b (by omega)
    have hR : ∀ w c b, b.toNat ≤ f + 1 →
        World.reflected_colour_fuel rsqrt rpow (f + 1) w c b =
          some (World.reflected_colour rsqrt rpow w c b) := by
      intro w c b hb
      unfold World.reflected_colour_fuel World.reflected_colour
      by_cases hb0 : b ≤ 0
      · simp [hb0]
      · by_cases hrefl : c.object.data.material.reflective = 0
        · simp [hb0, hrefl]
        · simp only [hb0, hrefl, if_false, dite_false]
          rw [hC w ⟨c.over_point, c.reflectv⟩ (b - 1) (by omega)]
          rcases hcv : World.colour_at rsqrt rpow w ⟨c.over_point, c.reflectv⟩ (b - 1)
              with _ | cv <;> simp [hcv]
    exact ⟨hC, hR, hSfromR (f + 1) hR⟩

/-- C1: the mutual recursion colour_at / shade_hit / reflected_colour
always terminates with call depth strictly bounded by the bounce budget
(the fuel-indexed evaluator with any fuel above the budget computes the
same value), and `reflected_colour` returns exactly black when the budget
is spent or the material is not reflective, and otherwise recurses once
into `colour_at` along the reflection ray from the over point with budget
minus one, scaling by the reflective coefficient. -/
theorem C1_bounce_recursion_bounded (rsqrt : ℚ → ℚ) (rpow : ℚ → ℚ → ℚ) :
    (∀ (w : World) (c : PreComputedData) (b : ℤ), b ≤ 0 →
      World.reflected_colour rsqrt rpow w c b = some Colour.black) ∧
    (∀ (w : World) (c : PreComputedData) (b : ℤ),
      c.object.data.material.reflective = 0 →
      World.reflected_colour rsqrt rpow w c b = some Colour.black) ∧
    (∀ (w : World) (c : PreComputedData) (b : ℤ), 0 < b →
      c.object.data.material.reflective ≠ 0 →
      World.reflected_colour rsqrt rpow w c b =
        (World.colour_at rsqrt rpow w ⟨c.over_point, c.reflectv⟩ (b - 1)).map
          (fun col : Colour => col * c.object.data.material.reflective)) ∧
    (∀ (fuel : ℕ) (w : World) (r : Ray) (b : ℤ), b.toNat < fuel →
      World.colour_at_fuel rsqrt rpow fuel w r b =
        some (World.colour_at rsqrt rpow w r b)) := by
  refine ⟨?_, ?_, ?_, fun fuel => (fuel_agrees rsqrt rpow fuel).1⟩
  · intro w c b hb
    unfold World.reflected_colour
    simp [hb]
  · intro w c b hrefl
    unfold World.reflected_colour
    by_cases hb : b ≤ 0
    · simp [hb]
    · simp [hb, hrefl]
  · intro w c b hb hrefl
    unfold World.reflected_colour
    simp only [not_le.mpr hb, dite_false, if_neg hrefl]
    rcases hcv : World.colour_at rsqrt rpow w ⟨c.over_point, c.reflectv⟩ (b - 1)
        with _ | cv <;> simp [hcv]

/-- C1, applied: with a spent budget, `reflected_colour` is black on a
concrete world and precomputation. -/
theorem C1_bounce_recursion_bounded_witness :
    World.reflected_colour (fun q => q) (fun b _ => b)
      ⟨⟨[]⟩, none⟩
      ⟨0, Sphere.new, Tuple.point 0 0 0, Tuple.point 0 0 0,
        Tuple.vector 0 0 1, Tuple.vector 0 0 1, Tuple.vector 0 0 1,
        false, 1, 1⟩ 0 = some Colour.black :=
  (C1_bounce_recursion_bounded (fun q => q) (fun b _ => b)).1 _ _ 0 (by omega)

/-- The square roots met by the lightless scene: the primary sphere
discriminant 4 and the unit normal length 1. -/
def c4_sqrt : ℚ → ℚ := fun q => if q = 4 then 2 else if q = 1 then 1 else 0

/-- The lightless world: one default unit sphere (id 0), no light. -/
def c4_world : World :=
  ⟨⟨[⟨.sphere, ⟨0, identityM, identityM, Material.new⟩⟩]⟩, none⟩

/-- The primary ray of the lightless scene: from (0, 0, -5) along +z. -/
def c4_ray : Ray := ⟨Tuple.point 0 0 (-5), Tuple.vector 0 0 1⟩

/-- C4 exhibits a code bug: in a world with no light, a ray that hits an
object makes `colour_at` panic (modelled `none`) instead of returning
black — `shade_hit` calls `is_shadowed`, which unwraps the absent light,
before its own `None => black` match arm can fire. -/
theorem C4_lightless_world_panics (rpow : ℚ → ℚ → ℚ) :
    World.colour_at c4_sqrt rpow c4_world c4_ray MAX_BOUNCES = none ∧
    hit (World.intersect_world c4_sqrt c4_world c4_ray) = some ⟨4, 0⟩ := by
  have hxs : World.intersect_world c4_sqrt c4_world c4_ray = [⟨4, 0⟩, ⟨6, 0⟩] := by
    simp +decide [World.intersect_world, Shape.intersect, local_intersect,
      Ray.transform, matApply, dot4, identityM, c4_world, c4_ray, Tuple.point,
      Tuple.vector, Tuple.dot, Tuple.sub_def, c4_sqrt]
    norm_num [sort_by_t, insert_by_t]
  have hshade : ∀ (comp : PreComputedData) (b : ℤ),
      World.shade_hit c4_sqrt rpow c4_world comp b = none := by
    intro comp b
    unfold World.shade_hit
    have hsh : c4_world.is_shadowed c4_sqrt comp.over_point = none := rfl
    rw [hsh]
  have hhit : hit [(⟨4, 0⟩ : Intersection), ⟨6, 0⟩] = some ⟨4, 0⟩ := by decide
  have hp : ∃ comp, prepare_computations c4_sqrt ⟨4, 0⟩ c4_ray c4_world.registry
      (some [⟨4, 0⟩, ⟨6, 0⟩]) = some (some comp) := by
    simp +decide [prepare_computations, refraction_walk, intersection_eq,
      ShapeRegistry.get, List.find?, c4_world, c4_ray, Shape.normal_at,
      local_normal_at, matApply, dot4, identityM, transpose, Tuple.point,
      Tuple.vector, Tuple.dot, Tuple.sub_def, Tuple.neg_def, Tuple.smul_def,
      Tuple.add_def, Tuple.normalise, Tuple.magnitude, c4_sqrt, reflect,
      Ray.position]
  obtain ⟨comp, hcomp⟩ := hp
  constructor
  · unfold World.colour_at
    rw [hxs]
    simp only [hhit, hcomp]
    exact hshade comp MAX_BOUNCES
  · rw [hxs]
    decide

/-- The stripe pattern of the C3 scene: red in even stripes, green in odd
ones, identity pattern transform. -/
def c3_pattern : PatternType :=
  .striped ⟨⟨1, 0, 0⟩, ⟨0, 1, 0⟩, identityM, identityM⟩

/-- The patterned plane of the C3 scene: shifted half a unit along x, pure
ambient material (diffuse and specular 0) so the rendered colour is exactly
the sampled pattern colour. -/
def c3_plane : Shape :=
  ⟨.plane, ⟨0, translation (1 / 2) 0 0, translation (-(1 / 2)) 0 0,
    { Material.new with
        ambient := 1, diffuse := 0, specular := 0, pattern := some c3_pattern }⟩⟩

/-- The C3 world: the shifted plane and a white light straight above the
hit point. -/
def c3_world : World :=
  ⟨⟨[c3_plane]⟩, some ⟨Tuple.point (5 / 4) 10 0, ⟨1, 1, 1⟩⟩⟩

/-- The C3 primary ray: straight down onto the plane, hitting it at world
point (5/4, 0, 0). -/
def c3_ray : Ray := ⟨Tuple.point (5 / 4) 1 0, Tuple.vector 0 (-1) 0⟩

/-- The square roots met by the C3 scene: unit normals, the light distance
(squared 100), and the shadow-ray distance squared. -/
def c3_sqrt : ℚ → ℚ := fun q =>
  if q = 1 then 1
  else if q = 100 then 10
  else if q = (10 - 50000 * f64Epsilon) ^ 2 then 10 - 50000 * f64Epsilon
  else 0

/-- The precomputation of the C3 hit: t = 1 on the plane, upward normal,
eye looking down, over point nudged up by the epsilon offset. -/
def c3_comps : PreComputedData :=
  { t := 1
    object := c3_plane
    point := Tuple.point (5 / 4) 0 0
    over_point := ⟨5 / 4, 50000 * f64Epsilon, 0, 1⟩
    eyev := Tuple.vector 0 1 0
    normalv := Tuple.vector 0 1 0
    reflectv := Tuple.vector 0 1 0
    inside := false
    n1 := 1
    n2 := 1 }

/-- C3 exhibits a code bug: on the shifted striped plane, the colour
rendered for the hit at world point (5/4, 0, 0) is the odd stripe
⟨0,1,0⟩, because `shade_hit` passes a fresh `Sphere::new()` (identity
inverse transform) to `lighting` as the pattern's shape; the claimed
two-inverse-transform sample through the actual hit shape
(`pattern_at_shape` on the plane itself) yields the even stripe ⟨1,0,0⟩
at that same point, and the two colours differ. -/
theorem C3_pattern_sampled_on_wrong_shape (rpow : ℚ → ℚ → ℚ) :
    World.colour_at c3_sqrt rpow c3_world c3_ray MAX_BOUNCES = some ⟨0, 1, 0⟩ ∧
    PatternType.pattern_at_shape c3_sqrt c3_pattern c3_plane
      (Tuple.point (5 / 4) 0 0) = ⟨1, 0, 0⟩ ∧
    (⟨1, 0, 0⟩ : Colour) ≠ ⟨0, 1, 0⟩ := by
  have hxs : World.intersect_world c3_sqrt c3_world c3_ray = [⟨1, 0⟩] := by
    simp +decide [World.intersect_world, Shape.intersect, local_intersect,
      Ray.transform, matApply, dot4, translation, c3_world, c3_plane, c3_ray,
      Tuple.point, Tuple.vector, f64Epsilon, sort_by_t, insert_by_t]
    try norm_num [sort_by_t, insert_by_t]
  have hhit : hit [(⟨1, 0⟩ : Intersection)] = some ⟨1, 0⟩ := by decide
  have hprep : prepare_computations c3_sqrt ⟨1, 0⟩ c3_ray c3_world.registry
      (some [⟨1, 0⟩]) = some (some c3_comps) := by
    simp +decide [prepare_computations, refraction_walk, intersection_eq,
      ShapeRegistry.get, List.find?, c3_world, c3_plane, c3_comps,
      Shape.normal_at, local_normal_at, matApply, dot4, translation, transpose,
      Tuple.point, Tuple.vector, Tuple.dot, Tuple.sub_def, Tuple.neg_def,
      Tuple.smul_def, Tuple.add_def, Tuple.normalise, Tuple.magnitude, c3_sqrt,
      reflect, Ray.position, c3_ray, f64Epsilon]
    try norm_num
  refine ⟨?_, ?_, by decide⟩
  · unfold World.colour_at
    rw [hxs]
    simp only [hhit, hprep]
    have hsh : c3_world.is_shadowed c3_sqrt c3_comps.over_point = some false := by
      simp +decide [World.is_shadowed, c3_world, c3_comps, c3_plane,
        World.intersect_world, Shape.intersect, local_intersect, Ray.transform,
        matApply, dot4, translation, Tuple.point, Tuple.vector, Tuple.sub_def,
        Tuple.magnitude, Tuple.normalise, c3_sqrt, f64Epsilon, hit, min_by_t,
        sort_by_t, insert_by_t]
      try norm_num
      try simp +decide [sort_by_t, insert_by_t, min_by_t]
    have hrefl : World.reflected_colour c3_sqrt rpow c3_world c3_comps MAX_BOUNCES
        = some Colour.black := by
      unfold World.reflected_colour
      simp +decide [c3_comps, c3_plane, MAX_BOUNCES, Material.new]
    unfold World.shade_hit
    simp only [hsh, hrefl]
    simp +decide [lighting, PatternType.pattern_at_shape, PatternType.pattern_at,
      PatternType.data, c3_world, c3_comps, c3_plane, c3_pattern, Sphere.new,
      identityM, matApply, dot4, Tuple.point, Tuple.vector, Tuple.dot,
      Tuple.sub_def, Tuple.neg_def, Tuple.smul_def, Tuple.normalise,
      Tuple.magnitude, c3_sqrt, reflect, Colour.add_eval, Colour.sub_eval,
      Colour.smul_eval, Colour.mul_def, Colour.black, Material.new]
    try norm_num
  · simp +decide [PatternType.pattern_at_shape, PatternType.pattern_at,
      PatternType.data, c3_pattern, c3_plane, matApply, dot4, translation,
      identityM, Tuple.point]
    try norm_num

end Raytracer
